import Mathlib

/-!
# Verification of the Tilemap tile-processing core

Shallow embedding of `src/services/tileProcessor.ts` (the `processImage`
pipeline and its `detectCollision` helper), together with proofs settling
the frozen claims about the natural-language specification.

Modelling conventions:
* A canvas pixel is one RGBA sample (`Pixel`, one `Nat` per channel; the
  browser guarantees byte values `0..255`, which the claims never depend on).
* A decoded source image (`HTMLImageElement` after load) is a width, a
  height and a total pixel function (`Image`).
* `ctx.getImageData(0, 0, size, size)` on the scratch canvas after
  `drawImage(source, x*ts, y*ts, ts, ts, 0, 0, ts, ts)` yields the
  `ts × ts` block of source pixels in row-major order: `extractTile`.
  The `try/catch` around `getImageData` is modelled by an `Option` input to
  `detectCollision` (`none` = the read threw).
* `canvas.toDataURL("image/png")` is a deterministic, lossless PNG
  encoding of the canvas pixels; it is modelled by `pngDataURL`, a concrete
  injective byte serialization (a fixed signature prefix followed by the
  raw RGBA bytes), which has exactly the properties (determinism,
  injectivity on pixel content) that lossless PNG encoding has within one
  invocation.
* The floating-point expression `solidPixels / totalPixels > 0.75` is
  modelled exactly over `ℚ` (`0.75` is exactly representable; the rational
  and double comparisons agree for every realistic tile size).
* `JSON.stringify(jsonOutput)` is modelled by the structured `Manifest`
  value plus a concrete character-level serializer `printTiles` /
  re-parser `parseTiles` for its `tiles` array, the only manifest field
  the claims quantify over. The `info` block (tool name, version,
  `new Date().toISOString()` timestamp) carries no claim-relevant data and
  is not modelled.
* The encoded output raster (`dataUrl`) is the PNG encoding of the result
  canvas; the claims reference only its dimensions and tile placements,
  which are carried by `width`/`height` and the `TileData` coordinates.
-/

deriving instance DecidableEq for Except

set_option maxRecDepth 8192

namespace Tilemap

/-- One RGBA sample of a canvas pixel buffer. -/
structure Pixel where
  r : Nat
  g : Nat
  b : Nat
  a : Nat
deriving DecidableEq, Repr

/-- A decoded source image: dimensions plus the pixel at each coordinate. -/
structure Image where
  width : Nat
  height : Nat
  pix : Nat → Nat → Pixel

/-- `mode: 'original' | 'optimized'` from `ProcessOptions`. -/
inductive Mode where
  | original
  | optimized
deriving DecidableEq, Repr

/-- The fatal failure of `processImage`: the source is smaller than one
tile along an axis (the thrown `Error` at `tileProcessor.ts:69`). -/
inductive ProcessError where
  | invalidDimensions
deriving DecidableEq, Repr

/-- `ProcessOptions` (`tileProcessor.ts:6-10`); `columns` is optional and
defaults to 8 at the destructuring `columns = 8`. -/
structure ProcessOptions where
  tileSize : Nat
  mode : Mode
  columns : Option Nat := none
deriving Repr

/-- `TileData` (`tileProcessor.ts:12-17`). -/
structure TileData where
  id : Nat
  x : Nat
  y : Nat
  isSolid : Bool
deriving DecidableEq, Repr

/-- One entry of the manifest's `tiles` array: `{id, collision}`. -/
structure ManifestTile where
  id : Nat
  collision : Bool
deriving DecidableEq, Repr

/-- The claim-relevant content of `jsonOutput` (`tileProcessor.ts:192-208`):
the `config` echo and the `tiles` array. -/
structure Manifest where
  tileSize : Nat
  mode : Mode
  width : Nat
  height : Nat
  tiles : List ManifestTile
deriving DecidableEq, Repr

/-- `ProcessResult` (`tileProcessor.ts:19-27`); `jsonContent` is carried
as the structured `Manifest`, `dataUrl` as the `width`/`height` fields. -/
structure ProcessResult where
  width : Nat
  height : Nat
  totalTiles : Nat
  uniqueTiles : Nat
  tiles : List TileData
  manifest : Manifest
deriving DecidableEq, Repr

/-- `detectCollision` (`tileProcessor.ts:33-52`): count the pixels with
alpha above 10, compare the opaque ratio against 0.75.  The `Option`
input models the `try/catch`: `none` is a `getImageData` that threw, and
the catch arm returns `false`. -/
def detectCollision (imgData : Option (List Pixel)) (size : Nat) : Bool :=
  match imgData with
  | none => false
  | some pixels =>
    let solidPixels := pixels.countP (fun p => decide (10 < p.a))
    let totalPixels := size * size
    decide (mkRat 3 4 < mkRat solidPixels totalPixels)

/-- The `tileSize × tileSize` pixel block of the source at grid cell
`(x, y)`, row-major — the scratch-canvas content after
`tempCtx.drawImage(sourceImage, x*tileSize, y*tileSize, tileSize,
tileSize, 0, 0, tileSize, tileSize)` (`tileProcessor.ts:137-141`). -/
def extractTile (img : Image) (tileSize x y : Nat) : List Pixel :=
  (List.range tileSize).flatMap (fun j =>
    (List.range tileSize).map (fun i => img.pix (x * tileSize + i) (y * tileSize + j)))

/-- Raw RGBA byte stream of a pixel buffer. -/
def encodePixels : List Pixel → List Nat
  | [] => []
  | p :: ps => p.r :: p.g :: p.b :: p.a :: encodePixels ps

/-- Fixed leading bytes of the encoding (the PNG signature prefix of the
produced data URL). -/
def pngHeader : List Nat := [137, 80, 78, 71]

/-- Model of `tempCanvas.toDataURL('image/png')` (`tileProcessor.ts:143`):
a deterministic lossless encoding of the canvas pixels, i.e. an injective
function of the pixel bytes. -/
def pngDataURL (pixels : List Pixel) : List Nat :=
  pngHeader ++ encodePixels pixels

/-- The grid cells in the source scan order: `y` (row) outer loop over
`rows`, `x` (column) inner loop over `cols`
(`tileProcessor.ts:134-135`). -/
def cellList (cols rows : Nat) : List (Nat × Nat) :=
  (List.range rows).flatMap (fun y => (List.range cols).map (fun x => (x, y)))

/-- The per-cell pixel buffers in scan order. -/
def cellBuffers (img : Image) (tileSize cols rows : Nat) : List (List Pixel) :=
  (cellList cols rows).map (fun c => extractTile img tileSize c.1 c.2)

/-- One iteration of the optimized-mode loop body
(`tileProcessor.ts:143-154`): hash the buffer; if the hash is not yet in
`uniqueTilesMap`, append the (hash, retained copy) pair to
`uniqueTilesList`.  The accumulator carries the insertion-ordered pairs;
`uniqueTilesMap.has` is the hash-membership test over them. -/
def dedupStep (acc : List (List Nat × List Pixel)) (buf : List Pixel) :
    List (List Nat × List Pixel) :=
  let tileHash := pngDataURL buf
  if acc.any (fun e => e.1 == tileHash) then acc else acc ++ [(tileHash, buf)]

/-- `uniqueTilesList` after the full scan (`tileProcessor.ts:134-156`). -/
def uniqueList (bufs : List (List Pixel)) : List (List Nat × List Pixel) :=
  bufs.foldl dedupStep []

/-- First-seen deduplication, written as a direct recursion carrying the
set of already-seen fingerprints: the reference form against which the
accumulating loop is proved equal. -/
def dedupRecP : List (List Nat) → List (List Pixel) → List (List Nat × List Pixel)
  | _, [] => []
  | seen, b :: bs =>
    if pngDataURL b ∈ seen then dedupRecP seen bs
    else (pngDataURL b, b) :: dedupRecP (pngDataURL b :: seen) bs

/-- First-seen deduplication where an adversarial `reorder` rearranges the
internal seen-fingerprint collection after every step — a model of an
arbitrary internal iteration/storage order of the fingerprint map. -/
def dedupRecPR (reorder : List (List Nat) → List (List Nat)) :
    List (List Nat) → List (List Pixel) → List (List Nat × List Pixel)
  | _, [] => []
  | seen, b :: bs =>
    if pngDataURL b ∈ seen then dedupRecPR reorder (reorder seen) bs
    else (pngDataURL b, b) :: dedupRecPR reorder (reorder (pngDataURL b :: seen)) bs

/-- Original-mode tile records (`tileProcessor.ts:109-125`): row-major
double loop, `id = y*cols + x`, identity placement, collision detected on
the extracted cell. -/
def originalTiles (img : Image) (tileSize cols rows : Nat) : List TileData :=
  (List.range rows).flatMap (fun y =>
    (List.range cols).map (fun x =>
      { id := y * cols + x
        x := x * tileSize
        y := y * tileSize
        isSolid := detectCollision (some (extractTile img tileSize x y)) tileSize }))

/-- Optimized-mode tile records (`tileProcessor.ts:169-188`): for unique
tile `index`, placement `(index % outCols, index / outCols)` scaled by
`tileSize`, collision detected on the retained representative buffer. -/
def optimizedTiles (tileSize outCols : Nat) (uniq : List (List Nat × List Pixel)) :
    List TileData :=
  uniq.enum.map (fun p =>
    { id := p.1
      x := p.1 % outCols * tileSize
      y := p.1 / outCols * tileSize
      isSolid := detectCollision (some p.2.2) tileSize })

/-- `jsonOutput` (`tileProcessor.ts:192-208`): configuration echo plus
`tiles: resultTiles.map(t => ({id: t.id, collision: t.isSolid}))`. -/
def buildManifest (tileSize : Nat) (mode : Mode) (width height : Nat)
    (resultTiles : List TileData) : Manifest :=
  { tileSize := tileSize
    mode := mode
    width := width
    height := height
    tiles := resultTiles.map (fun t => { id := t.id, collision := t.isSolid }) }

/-- The `ProcessResult` built by the `mode === 'original'` branch
(`tileProcessor.ts:89-125` and the shared tail `:192-218`). -/
def originalResult (img : Image) (tileSize cols rows totalTilesPossible : Nat) :
    ProcessResult :=
  let finalWidth := cols * tileSize
  let finalHeight := rows * tileSize
  let resultTiles := originalTiles img tileSize cols rows
  { width := finalWidth
    height := finalHeight
    totalTiles := totalTilesPossible
    uniqueTiles := totalTilesPossible
    tiles := resultTiles
    manifest := buildManifest tileSize Mode.original finalWidth finalHeight resultTiles }

/-- The `ProcessResult` built by the `mode === 'optimized'` branch
(`tileProcessor.ts:129-188` and the shared tail).  `Math.ceil(uniqueCount
/ outCols)` is `(uniqueCount + outCols - 1) / outCols` on naturals (equal
for every `outCols > 0`, and `columns` is a positive configuration
value). -/
def optimizedResult (img : Image) (tileSize columns cols rows totalTilesPossible : Nat) :
    ProcessResult :=
  let uniq := uniqueList (cellBuffers img tileSize cols rows)
  let uniqueCount := uniq.length
  let outCols := columns
  let outRows := (uniqueCount + outCols - 1) / outCols
  let resultTiles := optimizedTiles tileSize outCols uniq
  { width := outCols * tileSize
    height := outRows * tileSize
    totalTiles := totalTilesPossible
    uniqueTiles := uniqueCount
    tiles := resultTiles
    manifest := buildManifest tileSize Mode.optimized (outCols * tileSize)
      (outRows * tileSize) resultTiles }

/-- `processImage` (`tileProcessor.ts:57-219`).  Canvas/context creation
is modelled as always succeeding (its failure, `SurfaceAllocationFailure`,
is environmental and outside every claim). -/
def processImage (sourceImage : Image) (options : ProcessOptions) :
    Except ProcessError ProcessResult :=
  let tileSize := options.tileSize
  let columns := options.columns.getD 8
  let cols := sourceImage.width / tileSize
  let rows := sourceImage.height / tileSize
  let totalTilesPossible := cols * rows
  if totalTilesPossible = 0 then
    Except.error ProcessError.invalidDimensions
  else
    match options.mode with
    | Mode.original =>
      Except.ok (originalResult sourceImage tileSize cols rows totalTilesPossible)
    | Mode.optimized =>
      Except.ok (optimizedResult sourceImage tileSize columns cols rows totalTilesPossible)

/-! ## Generic row-major grid lemmas -/

theorem flatMapRange_length {α : Type} (n m : Nat) (f : Nat → Nat → α) :
    ((List.range n).flatMap (fun y => (List.range m).map (f y))).length = n * m := by
  simp [List.length_flatMap, Function.comp_def, mul_comm]

theorem flatMapRange_getElem {α : Type} (m : Nat) (f : Nat → Nat → α) :
    ∀ n x y : Nat, x < m → y < n →
      ((List.range n).flatMap (fun y => (List.range m).map (f y)))[y * m + x]? = some (f y x) := by
  intro n
  induction n with
  | zero => intro x y _ hy; exact absurd hy (Nat.not_lt_zero y)
  | succ n ih =>
    intro x y hx hy
    rw [List.range_succ, List.flatMap_append, List.getElem?_append]
    rcases Nat.lt_or_ge y n with h | h
    · have hlt : y * m + x < ((List.range n).flatMap (fun y => (List.range m).map (f y))).length := by
        rw [flatMapRange_length]
        calc y * m + x < y * m + m := by omega
          _ = (y + 1) * m := by ring
          _ ≤ n * m := Nat.mul_le_mul_right m h
      rw [if_pos hlt]
      exact ih x y hx h
    · have hy' : y = n := Nat.le_antisymm (Nat.lt_succ_iff.mp hy) h
      subst hy'
      have hge : ¬ (y * m + x < ((List.range y).flatMap (fun j => (List.range m).map (f j))).length) := by
        rw [flatMapRange_length]; omega
      rw [if_neg hge]
      rw [flatMapRange_length]
      have hidx : y * m + x - y * m = x := by omega
      rw [hidx]
      simp [List.getElem?_map, List.getElem?_range hx]

theorem flatMapRange_mem {α : Type} {n m : Nat} {f : Nat → Nat → α} {p : α}
    (hp : p ∈ (List.range n).flatMap (fun y => (List.range m).map (f y))) :
    ∃ j < n, ∃ i < m, p = f j i := by
  rw [List.mem_flatMap] at hp
  obtain ⟨j, hj, hp⟩ := hp
  rw [List.mem_map] at hp
  obtain ⟨i, hi, hp⟩ := hp
  exact ⟨j, List.mem_range.mp hj, i, List.mem_range.mp hi, hp.symm⟩

/-! ## Tile extraction lemmas -/

theorem extractTile_length (img : Image) (tileSize x y : Nat) :
    (extractTile img tileSize x y).length = tileSize * tileSize :=
  flatMapRange_length tileSize tileSize _

theorem extractTile_getElem (img : Image) (tileSize x y i j : Nat)
    (hi : i < tileSize) (hj : j < tileSize) :
    (extractTile img tileSize x y)[j * tileSize + i]? =
      some (img.pix (x * tileSize + i) (y * tileSize + j)) :=
  flatMapRange_getElem tileSize _ tileSize i j hi hj

theorem extractTile_mem {img : Image} {tileSize x y : Nat} {p : Pixel}
    (hp : p ∈ extractTile img tileSize x y) :
    ∃ j < tileSize, ∃ i < tileSize, p = img.pix (x * tileSize + i) (y * tileSize + j) := by
  exact @flatMapRange_mem Pixel tileSize tileSize
    (fun j i => img.pix (x * tileSize + i) (y * tileSize + j)) p hp

/-! ## Fingerprint lemmas -/

theorem encodePixels_injective : Function.Injective encodePixels := by
  intro l1
  induction l1 with
  | nil => intro l2 h; cases l2 with
    | nil => rfl
    | cons q qs => simp [encodePixels] at h
  | cons p ps ih =>
    intro l2 h
    cases l2 with
    | nil => simp [encodePixels] at h
    | cons q qs =>
      simp only [encodePixels, List.cons.injEq] at h
      obtain ⟨h1, h2, h3, h4, h5⟩ := h
      have hps := ih h5
      cases p; cases q
      simp_all

theorem pngDataURL_injective : Function.Injective pngDataURL := by
  intro b1 b2 h
  unfold pngDataURL at h
  exact encodePixels_injective (List.append_cancel_left h)

/-! ## Collision classifier lemmas -/

/-- The number of pixels whose alpha channel exceeds the threshold 10. -/
def solidCount (pixels : List Pixel) : Nat :=
  pixels.countP (fun p => decide (10 < p.a))

theorem detectCollision_none (size : Nat) : detectCollision none size = false := rfl

theorem detectCollision_some (pixels : List Pixel) (size : Nat) :
    detectCollision (some pixels) size =
      decide (mkRat 3 4 < mkRat (solidCount pixels) (size * size)) := rfl

/-- The code's exact-rational comparison, re-expressed as the spec's real
ratio `solidCount / size² > 0.75`. -/
theorem detectCollision_eq_ratio (pixels : List Pixel) (size : Nat) :
    (detectCollision (some pixels) size = true ↔
      (3 : ℚ) / 4 < (solidCount pixels : ℚ) / ((size : ℚ) * (size : ℚ))) := by
  rw [detectCollision_some, decide_eq_true_iff, Rat.mkRat_eq_div, Rat.mkRat_eq_div]
  push_cast
  rfl

/-- Cross-multiplied integer form of the threshold comparison. -/
theorem detectCollision_eq_natCompare (pixels : List Pixel) (size : Nat) (hs : 0 < size) :
    (detectCollision (some pixels) size = true ↔
      3 * (size * size) < 4 * solidCount pixels) := by
  rw [detectCollision_eq_ratio pixels size]
  have hpos : (0 : ℚ) < (size : ℚ) * (size : ℚ) := by positivity
  rw [div_lt_div_iff₀ (by norm_num) hpos]
  constructor
  · intro h
    have : (3 * (size * size) : ℚ) < (4 * solidCount pixels : ℚ) := by linarith
    exact_mod_cast this
  · intro h
    have : (3 * (size * size) : ℚ) < (4 * solidCount pixels : ℚ) := by exact_mod_cast h
    linarith

theorem detectCollision_opaque {pixels : List Pixel} {size : Nat}
    (hall : ∀ p ∈ pixels, 10 < p.a) (hlen : pixels.length = size * size) (hs : 0 < size) :
    detectCollision (some pixels) size = true := by
  rw [detectCollision_eq_natCompare pixels size hs]
  have hcount : solidCount pixels = size * size := by
    rw [← hlen]
    exact List.countP_eq_length.mpr (fun p hp => decide_eq_true (hall p hp))
  rw [hcount]
  have : 0 < size * size := Nat.mul_pos hs hs
  omega

theorem detectCollision_transparent {pixels : List Pixel} {size : Nat}
    (hall : ∀ p ∈ pixels, p.a = 0) :
    detectCollision (some pixels) size = false := by
  rw [detectCollision_some]
  have hcount : solidCount pixels = 0 := by
    apply List.countP_eq_zero.mpr
    intro p hp
    simp [hall p hp]
  rw [hcount]
  simp [Rat.mkRat_eq_div]
  positivity

/-! ## Deduplication lemmas -/

theorem dedupRecP_congr :
    ∀ (bufs : List (List Pixel)) (s1 s2 : List (List Nat)),
      (∀ h, h ∈ s1 ↔ h ∈ s2) → dedupRecP s1 bufs = dedupRecP s2 bufs := by
  intro bufs
  induction bufs with
  | nil => intro s1 s2 _; rfl
  | cons b bs ih =>
    intro s1 s2 hmem
    unfold dedupRecP
    by_cases hb : pngDataURL b ∈ s1
    · rw [if_pos hb, if_pos ((hmem _).mp hb)]
      exact ih s1 s2 hmem
    · rw [if_neg hb, if_neg (fun hc => hb ((hmem _).mpr hc))]
      rw [ih (pngDataURL b :: s1) (pngDataURL b :: s2)
        (by intro h; simp only [List.mem_cons]; rw [hmem h])]

theorem foldl_dedupStep_eq :
    ∀ (bufs : List (List Pixel)) (acc : List (List Nat × List Pixel)),
      bufs.foldl dedupStep acc = acc ++ dedupRecP (acc.map Prod.fst) bufs := by
  intro bufs
  induction bufs with
  | nil => intro acc; simp [dedupRecP]
  | cons b bs ih =>
    intro acc
    rw [List.foldl_cons]
    by_cases hb : pngDataURL b ∈ acc.map Prod.fst
    · have hstep : dedupStep acc b = acc := by
        have hany : (acc.any fun e => e.1 == pngDataURL b) = true := by
          rw [List.any_eq_true]
          obtain ⟨e, he, hfst⟩ := List.mem_map.mp hb
          exact ⟨e, he, by rw [hfst]; exact beq_self_eq_true _⟩
        unfold dedupStep
        simp only [hany, if_true]
      rw [hstep, ih acc]
      congr 1
      conv_rhs => unfold dedupRecP
      rw [if_pos hb]
    · have hstep : dedupStep acc b = acc ++ [(pngDataURL b, b)] := by
        have hany : (acc.any fun e => e.1 == pngDataURL b) = false := by
          rw [List.any_eq_false]
          intro e he hc
          exact hb (List.mem_map.mpr ⟨e, he, eq_of_beq hc⟩)
        unfold dedupStep
        simp only [hany, Bool.false_eq_true, if_false]
      rw [hstep, ih (acc ++ [(pngDataURL b, b)])]
      rw [List.append_assoc, List.cons_append, List.nil_append]
      congr 1
      show (pngDataURL b, b) :: dedupRecP ((acc ++ [(pngDataURL b, b)]).map Prod.fst) bs =
        dedupRecP (acc.map Prod.fst) (b :: bs)
      conv_rhs => unfold dedupRecP
      rw [if_neg hb]
      congr 1
      apply dedupRecP_congr
      intro h
      simp only [List.map_append, List.map_cons, List.map_nil, List.mem_append,
        List.mem_cons, List.mem_singleton, List.not_mem_nil, or_false, or_comm,
        false_or]

theorem uniqueList_eq_dedupRecP (bufs : List (List Pixel)) :
    uniqueList bufs = dedupRecP [] bufs := by
  rw [uniqueList, foldl_dedupStep_eq bufs []]
  rfl

theorem dedupRecP_length_le :
    ∀ (bufs : List (List Pixel)) (seen : List (List Nat)),
      (dedupRecP seen bufs).length ≤ bufs.length := by
  intro bufs
  induction bufs with
  | nil => intro seen; simp [dedupRecP]
  | cons b bs ih =>
    intro seen
    unfold dedupRecP
    by_cases hb : pngDataURL b ∈ seen
    · rw [if_pos hb]
      exact Nat.le_succ_of_le (ih seen)
    · rw [if_neg hb]
      simpa using Nat.succ_le_succ (ih (pngDataURL b :: seen))

theorem dedupRecP_length_eq_iff :
    ∀ (bufs : List (List Pixel)) (seen : List (List Nat)),
      ((dedupRecP seen bufs).length = bufs.length ↔
        bufs.Nodup ∧ ∀ b ∈ bufs, pngDataURL b ∉ seen) := by
  intro bufs
  induction bufs with
  | nil => intro seen; simp [dedupRecP]
  | cons b bs ih =>
    intro seen
    unfold dedupRecP
    by_cases hb : pngDataURL b ∈ seen
    · rw [if_pos hb]
      constructor
      · intro hlen
        have hle := dedupRecP_length_le bs seen
        rw [List.length_cons] at hlen
        omega
      · intro ⟨_, hnot⟩
        exact absurd hb (hnot b (List.mem_cons_self b bs))
    · rw [if_neg hb]
      rw [List.length_cons, List.length_cons, Nat.succ_inj']
      rw [ih (pngDataURL b :: seen)]
      constructor
      · intro ⟨hnd, hnot⟩
        constructor
        · rw [List.nodup_cons]
          refine ⟨fun hmem => ?_, hnd⟩
          exact hnot b hmem (List.mem_cons_self _ _)
        · intro b' hb'
          rcases List.mem_cons.mp hb' with h | h
          · subst h; exact hb
          · exact fun hc => hnot b' h (List.mem_cons_of_mem _ hc)
      · intro ⟨hndc, hnot⟩
        obtain ⟨hbnot, hnd⟩ := List.nodup_cons.mp hndc
        refine ⟨hnd, fun b' hb' hc => ?_⟩
        rcases List.mem_cons.mp hc with h | h
        · exact hbnot (pngDataURL_injective h ▸ hb')
        · exact hnot b' (List.mem_cons_of_mem _ hb') h

theorem dedupRecP_of_nodup :
    ∀ (bufs : List (List Pixel)) (seen : List (List Nat)),
      bufs.Nodup → (∀ b ∈ bufs, pngDataURL b ∉ seen) →
      dedupRecP seen bufs = bufs.map (fun b => (pngDataURL b, b)) := by
  intro bufs
  induction bufs with
  | nil => intro seen _ _; rfl
  | cons b bs ih =>
    intro seen hnd hnot
    unfold dedupRecP
    rw [if_neg (hnot b (List.mem_cons_self b bs))]
    rw [List.map_cons]
    congr 1
    apply ih (pngDataURL b :: seen) (List.nodup_cons.mp hnd).2
    intro b' hb'
    rw [List.mem_cons]
    rintro (h | h)
    · exact (List.nodup_cons.mp hnd).1 (pngDataURL_injective h ▸ hb')
    · exact hnot b' (List.mem_cons_of_mem b hb') h

theorem dedupRecPR_eq_dedupRecP (reorder : List (List Nat) → List (List Nat))
    (hmem : ∀ s h, h ∈ reorder s ↔ h ∈ s) :
    ∀ (bufs : List (List Pixel)) (s1 s2 : List (List Nat)),
      (∀ h, h ∈ s1 ↔ h ∈ s2) → dedupRecPR reorder s1 bufs = dedupRecP s2 bufs := by
  intro bufs
  induction bufs with
  | nil => intro s1 s2 _; rfl
  | cons b bs ih =>
    intro s1 s2 hs
    unfold dedupRecPR dedupRecP
    by_cases hb : pngDataURL b ∈ s1
    · rw [if_pos hb, if_pos ((hs _).mp hb)]
      exact ih (reorder s1) s2 (fun h => (hmem s1 h).trans (hs h))
    · rw [if_neg hb, if_neg (fun hc => hb ((hs _).mpr hc))]
      congr 1
      apply ih
      intro h
      rw [hmem (pngDataURL b :: s1) h]
      simp only [List.mem_cons]
      rw [hs h]

/-! ## Enumeration and tile-list indexing lemmas -/

theorem enumFrom_getElem {α : Type} :
    ∀ (l : List α) (s i : Nat), (List.enumFrom s l)[i]? = l[i]?.map (fun a => (s + i, a)) := by
  intro l
  induction l with
  | nil => intro s i; simp
  | cons a as ih =>
    intro s i
    cases i with
    | zero => simp
    | succ i =>
      simp only [List.enumFrom, List.getElem?_cons_succ, ih (s + 1) i]
      have h : s + 1 + i = s + (i + 1) := by omega
      rw [h]

theorem enumFrom_map_fst {α : Type} :
    ∀ (l : List α) (s : Nat), (List.enumFrom s l).map Prod.fst = List.range' s l.length := by
  intro l
  induction l with
  | nil => intro s; rfl
  | cons a as ih =>
    intro s
    simp only [List.enumFrom, List.map_cons, List.length_cons, List.range'_succ]
    rw [ih (s + 1)]

theorem optimizedTiles_length (tileSize outCols : Nat) (uniq : List (List Nat × List Pixel)) :
    (optimizedTiles tileSize outCols uniq).length = uniq.length := by
  simp [optimizedTiles, List.enum]

theorem optimizedTiles_getElem (tileSize outCols : Nat) (uniq : List (List Nat × List Pixel))
    (i : Nat) :
    (optimizedTiles tileSize outCols uniq)[i]? = uniq[i]?.map (fun e =>
      { id := i
        x := i % outCols * tileSize
        y := i / outCols * tileSize
        isSolid := detectCollision (some e.2) tileSize }) := by
  rw [optimizedTiles, List.getElem?_map, List.enum, enumFrom_getElem uniq 0 i]
  cases uniq[i]? with
  | none => rfl
  | some e => simp

theorem optimizedTiles_map_id (tileSize outCols : Nat) (uniq : List (List Nat × List Pixel)) :
    (optimizedTiles tileSize outCols uniq).map TileData.id = List.range uniq.length := by
  rw [optimizedTiles, List.map_map]
  have : (TileData.id ∘ fun p : Nat × (List Nat × List Pixel) =>
      ({ id := p.1, x := p.1 % outCols * tileSize, y := p.1 / outCols * tileSize,
         isSolid := detectCollision (some p.2.2) tileSize } : TileData)) = Prod.fst := by
    funext p; rfl
  rw [this, List.enum, enumFrom_map_fst, List.range_eq_range']

theorem originalTiles_length (img : Image) (tileSize cols rows : Nat) :
    (originalTiles img tileSize cols rows).length = rows * cols :=
  flatMapRange_length rows cols _

theorem originalTiles_getElem (img : Image) (tileSize cols rows : Nat) {x y : Nat}
    (hx : x < cols) (hy : y < rows) :
    (originalTiles img tileSize cols rows)[y * cols + x]? = some
      { id := y * cols + x
        x := x * tileSize
        y := y * tileSize
        isSolid := detectCollision (some (extractTile img tileSize x y)) tileSize } :=
  flatMapRange_getElem cols _ rows x y hx hy

theorem originalTiles_getElem_k (img : Image) (tileSize cols rows : Nat) {k : Nat}
    (hk : k < rows * cols) :
    (originalTiles img tileSize cols rows)[k]? = some
      { id := k
        x := k % cols * tileSize
        y := k / cols * tileSize
        isSolid := detectCollision
          (some (extractTile img tileSize (k % cols) (k / cols))) tileSize } := by
  have hcols : 0 < cols := by
    rcases Nat.eq_zero_or_pos cols with h | h
    · subst h; omega
    · exact h
  have hx : k % cols < cols := Nat.mod_lt k hcols
  have hy : k / cols < rows := by
    rw [Nat.div_lt_iff_lt_mul hcols]
    exact hk
  have hk' : k / cols * cols + k % cols = k := by
    have h := Nat.div_add_mod k cols
    rw [Nat.mul_comm] at h
    exact h
  rw [← hk']
  rw [originalTiles_getElem img tileSize cols rows hx hy]
  rw [hk']

theorem originalTiles_map_id (img : Image) (tileSize cols rows : Nat) :
    (originalTiles img tileSize cols rows).map TileData.id = List.range (rows * cols) := by
  apply List.ext_getElem?
  intro k
  rw [List.getElem?_map]
  by_cases hk : k < rows * cols
  · rw [originalTiles_getElem_k img tileSize cols rows hk, List.getElem?_range hk]
    rfl
  · have h1 : (originalTiles img tileSize cols rows)[k]? = none :=
      List.getElem?_eq_none (by rw [originalTiles_length]; exact Nat.le_of_not_lt hk)
    have h2 : (List.range (rows * cols))[k]? = none :=
      List.getElem?_eq_none (by simpa using Nat.le_of_not_lt hk)
    rw [h1, h2]
    rfl

/-! ## `processImage` inversion lemmas -/

theorem processImage_ok_original (img : Image) (opts : ProcessOptions) (r : ProcessResult)
    (hm : opts.mode = Mode.original) (hr : processImage img opts = Except.ok r) :
    img.width / opts.tileSize * (img.height / opts.tileSize) ≠ 0 ∧
      r = originalResult img opts.tileSize (img.width / opts.tileSize)
        (img.height / opts.tileSize)
        (img.width / opts.tileSize * (img.height / opts.tileSize)) := by
  simp only [processImage, hm] at hr
  split at hr
  · cases hr
  · cases hr
    exact ⟨by assumption, rfl⟩

theorem processImage_ok_optimized (img : Image) (opts : ProcessOptions) (r : ProcessResult)
    (hm : opts.mode = Mode.optimized) (hr : processImage img opts = Except.ok r) :
    img.width / opts.tileSize * (img.height / opts.tileSize) ≠ 0 ∧
      r = optimizedResult img opts.tileSize (opts.columns.getD 8)
        (img.width / opts.tileSize) (img.height / opts.tileSize)
        (img.width / opts.tileSize * (img.height / opts.tileSize)) := by
  simp only [processImage, hm] at hr
  split at hr
  · cases hr
  · cases hr
    exact ⟨by assumption, rfl⟩

theorem processImage_error_iff (img : Image) (opts : ProcessOptions) :
    processImage img opts = Except.error ProcessError.invalidDimensions ↔
      img.width / opts.tileSize * (img.height / opts.tileSize) = 0 := by
  constructor
  · intro hr
    by_contra h0
    simp only [processImage] at hr
    rw [if_neg h0] at hr
    cases hmode : opts.mode with
    | original => rw [hmode] at hr; cases hr
    | optimized => rw [hmode] at hr; cases hr
  · intro h0
    simp only [processImage]
    rw [if_pos h0]

/-! ## Manifest serialization

Character-level model of the `tiles` field of `JSON.stringify(jsonOutput)`
(`tileProcessor.ts:204-207`, `:217`): each entry prints as
`{"id":N,"collision":B}` and entries are comma-joined inside brackets,
exactly the JSON text produced for the array (modulo the pretty-printing
whitespace of `JSON.stringify(_, null, 2)`, which JSON parsing ignores).
`parseTiles` is the corresponding re-parser. -/

def quoteChar : Char := Char.ofNat 34

def lbraceChar : Char := Char.ofNat 123

def rbraceChar : Char := Char.ofNat 125

def digitChar (d : Nat) : Char := Char.ofNat (48 + d)

def charVal (c : Char) : Nat := c.toNat - 48

def isDigitChar (c : Char) : Bool := decide (48 ≤ c.toNat) && decide (c.toNat ≤ 57)

/-- Decimal rendering of a natural number. -/
def printNat (n : Nat) : List Char :=
  if n = 0 then [digitChar 0] else ((Nat.digits 10 n).map digitChar).reverse

def printBool (b : Bool) : List Char :=
  if b then ['t', 'r', 'u', 'e'] else ['f', 'a', 'l', 's', 'e']

/-- The characters `"id":` . -/
def idKey : List Char := [quoteChar, 'i', 'd', quoteChar, ':']

/-- The characters `"collision":` . -/
def collisionKeyTail : List Char :=
  [quoteChar, 'c', 'o', 'l', 'l', 'i', 's', 'i', 'o', 'n', quoteChar, ':']

/-- The characters `,"collision":` . -/
def collisionKey : List Char := ',' :: collisionKeyTail

def printMTile (t : ManifestTile) : List Char :=
  lbraceChar :: (idKey ++ printNat t.id ++ collisionKey ++ printBool t.collision ++ [rbraceChar])

def joinComma : List (List Char) → List Char
  | [] => []
  | [x] => x
  | x :: xs => x ++ ',' :: joinComma xs

def printTiles (l : List ManifestTile) : List Char :=
  '[' :: (joinComma (l.map printMTile) ++ [']'])

/-- Consume an expected literal character sequence. -/
def expects : List Char → List Char → Option (List Char)
  | [], s => some s
  | _ :: _, [] => none
  | p :: ps, c :: cs => if p = c then expects ps cs else none

def readNat (s : List Char) : Option (Nat × List Char) :=
  let ds := s.takeWhile isDigitChar
  if ds.isEmpty then none
  else some (Nat.ofDigits 10 ((ds.map charVal).reverse), s.dropWhile isDigitChar)

def readBool (s : List Char) : Option (Bool × List Char) :=
  match expects ['t', 'r', 'u', 'e'] s with
  | some rest => some (true, rest)
  | none =>
    match expects ['f', 'a', 'l', 's', 'e'] s with
    | some rest => some (false, rest)
    | none => none

def readMTile (s : List Char) : Option (ManifestTile × List Char) := do
  let s1 ← expects [lbraceChar] s
  let s2 ← expects idKey s1
  let (n, s3) ← readNat s2
  let s4 ← expects collisionKey s3
  let (b, s5) ← readBool s4
  let s6 ← expects [rbraceChar] s5
  pure (⟨n, b⟩, s6)

def readTilesAux : Nat → List Char → Option (List ManifestTile)
  | 0, _ => none
  | fuel + 1, s =>
    match readMTile s with
    | none => none
    | some (t, rest) =>
      match rest with
      | [']'] => some [t]
      | ',' :: rest2 => (readTilesAux fuel rest2).map (fun ts => t :: ts)
      | _ => none

def parseTiles (s : List Char) : Option (List ManifestTile) :=
  match s with
  | '[' :: rest => if rest = [']'] then some [] else readTilesAux rest.length rest
  | _ => none

/-! ## Serialization round-trip lemmas -/

theorem expects_append : ∀ (pat rest : List Char), expects pat (pat ++ rest) = some rest := by
  intro pat
  induction pat with
  | nil => intro rest; rfl
  | cons p ps ih =>
    intro rest
    simp only [List.cons_append, expects, if_pos rfl]
    exact ih rest

theorem charVal_digitChar : ∀ d, d < 10 → charVal (digitChar d) = d := by decide

theorem isDigitChar_digitChar : ∀ d, d < 10 → isDigitChar (digitChar d) = true := by decide

theorem printNat_all_digits (n : Nat) : ∀ c ∈ printNat n, isDigitChar c = true := by
  intro c hc
  unfold printNat at hc
  by_cases h : n = 0
  · rw [if_pos h] at hc
    rw [List.mem_singleton] at hc
    subst hc
    exact isDigitChar_digitChar 0 (by omega)
  · rw [if_neg h] at hc
    rw [List.mem_reverse, List.mem_map] at hc
    obtain ⟨d, hd, hdc⟩ := hc
    rw [← hdc]
    exact isDigitChar_digitChar d (Nat.digits_lt_base (by omega) hd)

theorem printNat_ne_nil (n : Nat) : printNat n ≠ [] := by
  unfold printNat
  by_cases h : n = 0
  · rw [if_pos h]; simp
  · rw [if_neg h]
    simp only [ne_eq, List.reverse_eq_nil_iff, List.map_eq_nil_iff]
    exact fun hnil => h (Nat.digits_eq_nil_iff_eq_zero.mp hnil)

theorem takeWhile_append_all {p : Char → Bool} :
    ∀ (l r : List Char), (∀ c ∈ l, p c = true) →
      (l ++ r).takeWhile p = l ++ r.takeWhile p := by
  intro l
  induction l with
  | nil => intro r _; rfl
  | cons c cs ih =>
    intro r hall
    simp only [List.cons_append, List.takeWhile_cons, hall c (List.mem_cons_self c cs),
      if_pos rfl, if_true]
    rw [ih r (fun c' hc' => hall c' (List.mem_cons_of_mem c hc'))]

theorem dropWhile_append_all {p : Char → Bool} :
    ∀ (l r : List Char), (∀ c ∈ l, p c = true) →
      (l ++ r).dropWhile p = r.dropWhile p := by
  intro l
  induction l with
  | nil => intro r _; rfl
  | cons c cs ih =>
    intro r hall
    simp only [List.cons_append, List.dropWhile_cons, hall c (List.mem_cons_self c cs),
      if_pos rfl, if_true]
    exact ih r (fun c' hc' => hall c' (List.mem_cons_of_mem c hc'))

theorem ofDigits_printNat (n : Nat) :
    Nat.ofDigits 10 ((printNat n).map charVal).reverse = n := by
  unfold printNat
  by_cases h : n = 0
  · rw [if_pos h, h]
    simp [charVal, digitChar, Nat.ofDigits]
  · rw [if_neg h]
    rw [← List.map_reverse, List.reverse_reverse]
    rw [List.map_map]
    have hcongr : (Nat.digits 10 n).map (charVal ∘ digitChar) = Nat.digits 10 n := by
      have : (Nat.digits 10 n).map (charVal ∘ digitChar) = (Nat.digits 10 n).map id := by
        apply List.map_congr_left
        intro d hd
        exact charVal_digitChar d (Nat.digits_lt_base (by omega) hd)
      rw [this, List.map_id]
    rw [hcongr, Nat.ofDigits_digits]

theorem readNat_print (n : Nat) (c : Char) (r : List Char) (hc : isDigitChar c = false) :
    readNat (printNat n ++ c :: r) = some (n, c :: r) := by
  have htake : (printNat n ++ c :: r).takeWhile isDigitChar = printNat n := by
    rw [takeWhile_append_all (printNat n) (c :: r) (printNat_all_digits n)]
    rw [List.takeWhile_cons, hc]
    simp
  have hdrop : (printNat n ++ c :: r).dropWhile isDigitChar = c :: r := by
    rw [dropWhile_append_all (printNat n) (c :: r) (printNat_all_digits n)]
    rw [List.dropWhile_cons, hc]
    simp
  unfold readNat
  simp only [htake, hdrop]
  rw [if_neg (by simp only [List.isEmpty_iff]; exact printNat_ne_nil n)]
  rw [ofDigits_printNat n]

theorem readBool_print (b : Bool) (rest : List Char) :
    readBool (printBool b ++ rest) = some (b, rest) := by
  cases b with
  | true =>
    unfold readBool printBool
    simp only [if_true]
    rw [show (['t', 'r', 'u', 'e'] : List Char) ++ rest =
      ['t', 'r', 'u', 'e'] ++ rest from rfl]
    rw [expects_append]
  | false =>
    unfold readBool printBool
    simp only [Bool.false_eq_true, if_false]
    have h1 : expects ['t', 'r', 'u', 'e'] (['f', 'a', 'l', 's', 'e'] ++ rest) = none := by
      simp [expects]
    rw [h1, expects_append]

theorem readMTile_print (t : ManifestTile) (rest : List Char) :
    readMTile (printMTile t ++ rest) = some (t, rest) := by
  have hshape : printMTile t ++ rest =
      [lbraceChar] ++ (idKey ++ (printNat t.id ++ (',' :: (collisionKeyTail ++
        (printBool t.collision ++ ([rbraceChar] ++ rest)))))) := by
    simp [printMTile, collisionKey, List.append_assoc]
  rw [hshape]
  unfold readMTile
  rw [expects_append]
  simp only [Option.bind_eq_bind, Option.some_bind]
  rw [expects_append]
  simp only [Option.some_bind]
  rw [readNat_print t.id ',' _ (by decide)]
  simp only [Option.some_bind]
  rw [show (',' :: (collisionKeyTail ++ (printBool t.collision ++ ([rbraceChar] ++ rest)))) =
    collisionKey ++ (printBool t.collision ++ ([rbraceChar] ++ rest)) from rfl]
  rw [expects_append]
  simp only [Option.some_bind]
  rw [readBool_print t.collision ([rbraceChar] ++ rest)]
  simp only [Option.some_bind]
  rw [expects_append]
  rfl

theorem joinComma_length_ge :
    ∀ ts : List ManifestTile, ts.length ≤ (joinComma (ts.map printMTile)).length := by
  intro ts
  induction ts with
  | nil => simp [joinComma]
  | cons t us ih =>
    cases us with
    | nil => simp [joinComma, printMTile]
    | cons u vs =>
      show (t :: u :: vs).length ≤
        (printMTile t ++ ',' :: joinComma ((u :: vs).map printMTile)).length
      rw [List.length_append]
      have h1 : 1 ≤ (printMTile t).length := by simp [printMTile]
      simp only [List.length_cons] at ih ⊢
      omega

theorem readTilesAux_print :
    ∀ (l : List ManifestTile) (t : ManifestTile) (fuel : Nat), l.length < fuel →
      readTilesAux fuel (joinComma ((t :: l).map printMTile) ++ [']']) = some (t :: l) := by
  intro l
  induction l with
  | nil =>
    intro t fuel hf
    cases fuel with
    | zero => omega
    | succ f =>
      show readTilesAux (f + 1) (printMTile t ++ [']']) = some [t]
      unfold readTilesAux
      rw [readMTile_print t [']']]
      rfl
  | cons u us ih =>
    intro t fuel hf
    cases fuel with
    | zero => omega
    | succ f =>
      have hshape : joinComma ((t :: u :: us).map printMTile) ++ [']'] =
          printMTile t ++ (',' :: (joinComma ((u :: us).map printMTile) ++ [']'])) := by
        show (printMTile t ++ ',' :: joinComma ((u :: us).map printMTile)) ++ [']'] = _
        rw [List.append_assoc, List.cons_append]
      rw [hshape]
      unfold readTilesAux
      rw [readMTile_print t (',' :: (joinComma ((u :: us).map printMTile) ++ [']']))]
      show (readTilesAux f (joinComma ((u :: us).map printMTile) ++ [']'])).map
        (fun ts => t :: ts) = some (t :: u :: us)
      rw [ih u f (by simp only [List.length_cons] at hf; omega)]
      rfl

theorem parseTiles_printTiles (l : List ManifestTile) :
    parseTiles (printTiles l) = some l := by
  cases l with
  | nil => rfl
  | cons t ts =>
    have hstep : parseTiles ('[' :: (joinComma ((t :: ts).map printMTile) ++ [']'])) =
        if (joinComma ((t :: ts).map printMTile) ++ [']']) = [']'] then some []
        else readTilesAux (joinComma ((t :: ts).map printMTile) ++ [']']).length
          (joinComma ((t :: ts).map printMTile) ++ [']']) := rfl
    show parseTiles ('[' :: (joinComma ((t :: ts).map printMTile) ++ [']'])) = some (t :: ts)
    have hlen := joinComma_length_ge (t :: ts)
    rw [hstep]
    rw [if_neg (by
      intro hc
      have h' := congrArg List.length hc
      rw [List.length_append] at h'
      simp only [List.length_cons, List.length_nil] at h' hlen
      omega)]
    apply readTilesAux_print ts t
    rw [List.length_append]
    simp only [List.length_cons] at hlen ⊢
    omega

/-! ## Further shared helper lemmas -/

theorem cellBuffers_length (img : Image) (tileSize cols rows : Nat) :
    (cellBuffers img tileSize cols rows).length = rows * cols := by
  rw [cellBuffers, List.length_map]
  exact flatMapRange_length rows cols _

/-- Both modes emit contiguous ids `0, 1, 2, …` in list order. -/
theorem processImage_tiles_map_id (img : Image) (opts : ProcessOptions) (r : ProcessResult)
    (hr : processImage img opts = Except.ok r) :
    r.tiles.map TileData.id = List.range r.tiles.length := by
  cases hm : opts.mode with
  | original =>
    obtain ⟨h0, hre⟩ := processImage_ok_original img opts r hm hr
    subst hre
    show (originalTiles img opts.tileSize (img.width / opts.tileSize)
        (img.height / opts.tileSize)).map TileData.id =
      List.range (originalTiles img opts.tileSize (img.width / opts.tileSize)
        (img.height / opts.tileSize)).length
    rw [originalTiles_map_id, originalTiles_length]
  | optimized =>
    obtain ⟨h0, hre⟩ := processImage_ok_optimized img opts r hm hr
    subst hre
    show (optimizedTiles opts.tileSize (opts.columns.getD 8)
        (uniqueList (cellBuffers img opts.tileSize (img.width / opts.tileSize)
          (img.height / opts.tileSize)))).map TileData.id =
      List.range (optimizedTiles opts.tileSize (opts.columns.getD 8)
        (uniqueList (cellBuffers img opts.tileSize (img.width / opts.tileSize)
          (img.height / opts.tileSize)))).length
    rw [optimizedTiles_map_id, optimizedTiles_length]

/-! ## Concrete scenario inputs -/

/-- Scenario B source (spec §8): a 96×48 image whose two 48×48 halves are
pixel-identical — here a constant opaque colour. -/
def imgScenB : Image :=
  { width := 96, height := 48, pix := fun _ _ => ⟨10, 20, 30, 255⟩ }

def optsScenB : ProcessOptions :=
  { tileSize := 48, mode := Mode.optimized, columns := some 8 }

/-- The single tile content of Scenario B. -/
def tileB : List Pixel := extractTile imgScenB 48 0 0

/-- The result Scenario B actually produces. -/
def resScenB : ProcessResult :=
  { width := 384
    height := 48
    totalTiles := 2
    uniqueTiles := 1
    tiles := [⟨0, 0, 0, true⟩]
    manifest := ⟨48, Mode.optimized, 384, 48, [⟨0, true⟩]⟩ }

theorem cellBuffersB : cellBuffers imgScenB 48 2 1 = [tileB, tileB] := rfl

theorem uniqB : uniqueList (cellBuffers imgScenB 48 2 1) = [(pngDataURL tileB, tileB)] := by
  rw [cellBuffersB]
  show List.foldl dedupStep [] [tileB, tileB] = _
  rw [List.foldl_cons, List.foldl_cons, List.foldl_nil]
  have h1 : dedupStep [] tileB = [(pngDataURL tileB, tileB)] := rfl
  have h2 : dedupStep [(pngDataURL tileB, tileB)] tileB = [(pngDataURL tileB, tileB)] := by
    unfold dedupStep
    have hany : (([(pngDataURL tileB, tileB)]).any fun e => e.1 == pngDataURL tileB) = true := by
      simp only [List.any_cons, List.any_nil, Bool.or_false]
      exact beq_self_eq_true _
    simp only [hany, if_true]
  rw [h1, h2]

theorem detB : detectCollision (some tileB) 48 = true := by
  apply detectCollision_opaque
  · intro p hp
    obtain ⟨j, hj, i, hi, hp'⟩ := extractTile_mem hp
    subst hp'
    show 10 < 255
    omega
  · exact extractTile_length imgScenB 48 0 0
  · omega

/-- The packed single-tile list of Scenario B. -/
theorem htilesB : optimizedTiles 48 8 [(pngDataURL tileB, tileB)] = [⟨0, 0, 0, true⟩] := by
  unfold optimizedTiles
  simp only [List.enum, List.enumFrom, List.map_cons, List.map_nil]
  rw [detB]

/-- The end-to-end evaluation of Scenario B: what `processImage` returns. -/
theorem scenarioB_eval : processImage imgScenB optsScenB = Except.ok resScenB := by
  have hpi : processImage imgScenB optsScenB =
      Except.ok (optimizedResult imgScenB 48 8 2 1 2) := rfl
  have hres : optimizedResult imgScenB 48 8 2 1 2 = resScenB := by
    unfold optimizedResult
    simp only [uniqB]
    rw [htilesB]
    rfl
  rw [hpi, hres]

/-- Scenario E source (spec §8): 480×48, ten mutually distinct 48×48 tiles
(tile `i` is the constant colour `(i, 0, 0, 255)`). -/
def imgScenE : Image :=
  { width := 480, height := 48, pix := fun x _ => ⟨x / 48, 0, 0, 255⟩ }

def optsScenE : ProcessOptions :=
  { tileSize := 48, mode := Mode.optimized, columns := some 8 }

/-- The `i`-th tile content of Scenario E. -/
def tileE (i : Nat) : List Pixel := extractTile imgScenE 48 i 0

/-- The result of Scenario E (given symbolically; its fields are computed
by the lemmas below). -/
def resScenE : ProcessResult := optimizedResult imgScenE 48 8 10 1 10

theorem scenarioE_eval : processImage imgScenE optsScenE = Except.ok resScenE := rfl

theorem tileE_getElem_zero (i : Nat) : (tileE i)[0]? = some ⟨i, 0, 0, 255⟩ := by
  have h := extractTile_getElem imgScenE 48 i 0 0 0 (by omega) (by omega)
  have hidx : (0 : Nat) * 48 + 0 = 0 := by omega
  rw [hidx] at h
  rw [show tileE i = extractTile imgScenE 48 i 0 from rfl, h]
  show some (⟨(i * 48 + 0) / 48, 0, 0, 255⟩ : Pixel) = some ⟨i, 0, 0, 255⟩
  congr 2
  omega

theorem tileE_injective : Function.Injective tileE := by
  intro x y h
  have hx := tileE_getElem_zero x
  have hy := tileE_getElem_zero y
  rw [h, hy] at hx
  have := Option.some.inj hx
  cases this
  rfl

theorem cellBuffersE : cellBuffers imgScenE 48 10 1 = (List.range 10).map tileE := rfl

theorem uniqE : uniqueList (cellBuffers imgScenE 48 10 1) =
    (List.range 10).map (fun i => (pngDataURL (tileE i), tileE i)) := by
  rw [uniqueList_eq_dedupRecP, cellBuffersE]
  rw [dedupRecP_of_nodup ((List.range 10).map tileE) []
    (List.Nodup.map tileE_injective (List.nodup_range 10))
    (fun b _ => List.not_mem_nil _)]
  rw [List.map_map]
  rfl

theorem uniqE_length : (uniqueList (cellBuffers imgScenE 48 10 1)).length = 10 := by
  rw [uniqE]
  simp

theorem uniqE_getElem (k : Nat) (hk : k < 10) :
    (uniqueList (cellBuffers imgScenE 48 10 1))[k]? =
      some (pngDataURL (tileE k), tileE k) := by
  rw [uniqE, List.getElem?_map, List.getElem?_range hk]
  rfl

theorem resScenE_uniqueTiles : resScenE.uniqueTiles = 10 := uniqE_length

theorem resScenE_tiles_getElem (k : Nat) (hk : k < 10) :
    resScenE.tiles[k]? = some ⟨k, k % 8 * 48, k / 8 * 48,
      detectCollision (some (tileE k)) 48⟩ := by
  show (optimizedTiles 48 8 (uniqueList (cellBuffers imgScenE 48 10 1)))[k]? = _
  rw [optimizedTiles_getElem, uniqE_getElem k hk]
  rfl

/-! ## Tiny scenario inputs (used by witnesses) -/

/-- 4×4 image, opaque top half, transparent bottom half. -/
def imgTinyOrig : Image :=
  { width := 4, height := 4
    pix := fun _ y => if y < 2 then ⟨1, 2, 3, 255⟩ else ⟨0, 0, 0, 0⟩ }

def optsTinyOrig : ProcessOptions := { tileSize := 2, mode := Mode.original }

def resTinyOrig : ProcessResult :=
  { width := 4, height := 4, totalTiles := 4, uniqueTiles := 4
    tiles := [⟨0, 0, 0, true⟩, ⟨1, 2, 0, true⟩, ⟨2, 0, 2, false⟩, ⟨3, 2, 2, false⟩]
    manifest := ⟨2, Mode.original, 4, 4, [⟨0, true⟩, ⟨1, true⟩, ⟨2, false⟩, ⟨3, false⟩]⟩ }

/-- 4×2 image whose two 2×2 cells are pixel-identical. -/
def imgTinyOpt : Image :=
  { width := 4, height := 2, pix := fun x y => ⟨x % 2, y, 0, 255⟩ }

def optsTinyOpt : ProcessOptions := { tileSize := 2, mode := Mode.optimized }

def resTinyOpt : ProcessResult :=
  { width := 16, height := 2, totalTiles := 2, uniqueTiles := 1
    tiles := [⟨0, 0, 0, true⟩]
    manifest := ⟨2, Mode.optimized, 16, 2, [⟨0, true⟩]⟩ }

/-- 1×1 image: smaller than one tile. -/
def imgTiny1 : Image := { width := 1, height := 1, pix := fun _ _ => ⟨0, 0, 0, 0⟩ }

/-! ## Claims -/

/-- C1: the deduplication fingerprint is a function of exactly the
canonical pixel bytes of a tile, deterministic and lossless: two pixel
buffers have equal fingerprints if and only if they are byte-identical —
byte-identical buffers always collide, any pixel difference always
separates. -/
theorem fingerprint_eq_iff_pixels_eq (b1 b2 : List Pixel) :
    pngDataURL b1 = pngDataURL b2 ↔ b1 = b2 :=
  ⟨fun h => pngDataURL_injective h, fun h => by rw [h]⟩

/-- C2 counterexample: on the 96×48 source with pixel-identical halves,
tileSize 48, Optimized mode, columns 8, the output width is 384 — not the
48 the claim states (the code always sets the output width to
`columns * tileSize`). -/
theorem scenarioB_claim_counterexample :
    (processImage imgScenB optsScenB).map ProcessResult.width = Except.ok 384 ∧
    (384 : Nat) ≠ 48 := by
  constructor
  · rw [scenarioB_eval]
    rfl
  · decide

/-- C2 (amended): for the 96×48 source with pixel-identical halves,
tileSize 48, Optimized, columns 8: totalTiles = 2, uniqueTiles = 1, the
output image is 384×48 (width = columns×tileSize), and the tile list is
the single tile with id 0. -/
theorem scenarioB_corrected :
    processImage imgScenB optsScenB = Except.ok resScenB ∧
    resScenB.totalTiles = 2 ∧ resScenB.uniqueTiles = 1 ∧
    resScenB.width = 384 ∧ resScenB.height = 48 ∧
    resScenB.tiles = [⟨0, 0, 0, true⟩] :=
  ⟨scenarioB_eval, rfl, rfl, rfl, rfl, rfl⟩

/-- C3: in Optimized mode, scanning the row-major cell list
(`cellBuffers`), each new fingerprint is retained with the next sequential
id (ids are `0, 1, …, uniqueTiles-1` in discovery order — the fold equals
the first-seen recursion `dedupRecP`), duplicates are skipped, and
uniqueTiles ≤ totalTiles with equality iff no two source cells are
byte-identical. -/
theorem optimized_dedup_spec (img : Image) (opts : ProcessOptions) (r : ProcessResult)
    (hm : opts.mode = Mode.optimized) (hr : processImage img opts = Except.ok r) :
    r.uniqueTiles ≤ r.totalTiles ∧
    (r.uniqueTiles = r.totalTiles ↔
      (cellBuffers img opts.tileSize (img.width / opts.tileSize)
        (img.height / opts.tileSize)).Nodup) ∧
    r.tiles.map TileData.id = List.range r.uniqueTiles ∧
    uniqueList (cellBuffers img opts.tileSize (img.width / opts.tileSize)
      (img.height / opts.tileSize)) =
      dedupRecP [] (cellBuffers img opts.tileSize (img.width / opts.tileSize)
        (img.height / opts.tileSize)) := by
  obtain ⟨h0, hre⟩ := processImage_ok_optimized img opts r hm hr
  subst hre
  have hbl : (cellBuffers img opts.tileSize (img.width / opts.tileSize)
      (img.height / opts.tileSize)).length =
      img.height / opts.tileSize * (img.width / opts.tileSize) :=
    cellBuffers_length img opts.tileSize _ _
  refine ⟨?_, ?_, ?_, uniqueList_eq_dedupRecP _⟩
  · show (uniqueList (cellBuffers img opts.tileSize (img.width / opts.tileSize)
      (img.height / opts.tileSize))).length ≤
      img.width / opts.tileSize * (img.height / opts.tileSize)
    rw [uniqueList_eq_dedupRecP]
    exact le_trans (dedupRecP_length_le _ [])
      (le_of_eq (hbl.trans (Nat.mul_comm _ _)))
  · show (uniqueList (cellBuffers img opts.tileSize (img.width / opts.tileSize)
      (img.height / opts.tileSize))).length =
      img.width / opts.tileSize * (img.height / opts.tileSize) ↔ _
    rw [uniqueList_eq_dedupRecP]
    rw [show img.width / opts.tileSize * (img.height / opts.tileSize) =
      (cellBuffers img opts.tileSize (img.width / opts.tileSize)
        (img.height / opts.tileSize)).length from
      (Nat.mul_comm _ _).trans hbl.symm]
    rw [dedupRecP_length_eq_iff]
    simp
  · show (optimizedTiles opts.tileSize (opts.columns.getD 8)
      (uniqueList (cellBuffers img opts.tileSize (img.width / opts.tileSize)
        (img.height / opts.tileSize)))).map TileData.id =
      List.range (uniqueList (cellBuffers img opts.tileSize
        (img.width / opts.tileSize) (img.height / opts.tileSize))).length
    exact optimizedTiles_map_id _ _ _

/-- C3 witness: the 4×2 source with two byte-identical 2×2 cells. -/
theorem optimized_dedup_spec_witness :
    resTinyOpt.uniqueTiles ≤ resTinyOpt.totalTiles ∧
    (resTinyOpt.uniqueTiles = resTinyOpt.totalTiles ↔
      (cellBuffers imgTinyOpt 2 2 1).Nodup) ∧
    resTinyOpt.tiles.map TileData.id = List.range resTinyOpt.uniqueTiles ∧
    uniqueList (cellBuffers imgTinyOpt 2 2 1) =
      dedupRecP [] (cellBuffers imgTinyOpt 2 2 1) :=
  optimized_dedup_spec imgTinyOpt optsTinyOpt resTinyOpt rfl rfl

/-- C4: for positive tileSize, `processImage` succeeds with
`totalTiles = floor(width/tileSize) * floor(height/tileSize)` whenever
both grid dimensions are at least 1, and fails with `InvalidDimensions`
(producing no result) whenever the product is 0. -/
theorem grid_count_and_invalidDimensions (img : Image) (opts : ProcessOptions)
    (hts : 0 < opts.tileSize) :
    (0 < img.width / opts.tileSize → 0 < img.height / opts.tileSize →
      ∃ r, processImage img opts = Except.ok r ∧
        r.totalTiles = img.width / opts.tileSize * (img.height / opts.tileSize)) ∧
    (img.width / opts.tileSize * (img.height / opts.tileSize) = 0 →
      processImage img opts = Except.error ProcessError.invalidDimensions) := by
  constructor
  · intro hw hh
    have h0 : ¬ img.width / opts.tileSize * (img.height / opts.tileSize) = 0 :=
      Nat.mul_ne_zero (Nat.pos_iff_ne_zero.mp hw) (Nat.pos_iff_ne_zero.mp hh)
    cases hm : opts.mode with
    | original =>
      refine ⟨originalResult img opts.tileSize (img.width / opts.tileSize)
        (img.height / opts.tileSize)
        (img.width / opts.tileSize * (img.height / opts.tileSize)), ?_, rfl⟩
      simp only [processImage, hm]
      rw [if_neg h0]
    | optimized =>
      refine ⟨optimizedResult img opts.tileSize (opts.columns.getD 8)
        (img.width / opts.tileSize) (img.height / opts.tileSize)
        (img.width / opts.tileSize * (img.height / opts.tileSize)), ?_, rfl⟩
      simp only [processImage, hm]
      rw [if_neg h0]
  · exact (processImage_error_iff img opts).mpr

/-- C4 witness: a 4×4 source with tileSize 2 succeeds with totalTiles 4;
a 1×1 source with tileSize 2 fails with `InvalidDimensions`. -/
theorem grid_count_and_invalidDimensions_witness :
    resTinyOrig.totalTiles = imgTinyOrig.width / optsTinyOrig.tileSize *
      (imgTinyOrig.height / optsTinyOrig.tileSize) ∧
    processImage imgTiny1 optsTinyOrig = Except.error ProcessError.invalidDimensions := by
  obtain ⟨r, hr, ht⟩ :=
    (grid_count_and_invalidDimensions imgTinyOrig optsTinyOrig (by decide)).1
      (by decide) (by decide)
  have hr2 : r = resTinyOrig := Except.ok.inj (hr.symm.trans
    (show processImage imgTinyOrig optsTinyOrig = Except.ok resTinyOrig from rfl))
  exact ⟨hr2 ▸ ht,
    (grid_count_and_invalidDimensions imgTiny1 optsTinyOrig (by decide)).2 (by decide)⟩

/-- C5: for a tileSize×tileSize RGBA buffer the classifier returns
`isSolid = (count of pixels with alpha > 10) / tileSize² > 0.75`; a fully
opaque buffer is solid, a fully transparent one is not, and an unreadable
buffer degrades to `false` instead of aborting. -/
theorem detectCollision_spec (size : Nat) (pixels : List Pixel)
    (hlen : pixels.length = size * size) (hs : 0 < size) :
    (detectCollision (some pixels) size = true ↔
      (3 : ℚ) / 4 < (solidCount pixels : ℚ) / ((size : ℚ) * (size : ℚ))) ∧
    ((∀ p ∈ pixels, p.a = 255) → detectCollision (some pixels) size = true) ∧
    ((∀ p ∈ pixels, p.a = 0) → detectCollision (some pixels) size = false) ∧
    detectCollision none size = false := by
  refine ⟨detectCollision_eq_ratio pixels size, fun hall => ?_,
    fun hall => detectCollision_transparent hall, rfl⟩
  exact detectCollision_opaque (fun p hp => by rw [hall p hp]; omega) hlen hs

def bufC5 : List Pixel := List.replicate 4 ⟨0, 0, 0, 255⟩

/-- C5 witness: a fully opaque 2×2 buffer is solid; `none` degrades to
`false`. -/
theorem detectCollision_spec_witness :
    bufC5.length = 2 * 2 ∧ (0 : Nat) < 2 ∧
    detectCollision (some bufC5) 2 = true ∧ detectCollision none 2 = false := by
  have h := detectCollision_spec 2 bufC5 (by decide) (by decide)
  exact ⟨by decide, by decide, h.2.1 (by decide), h.2.2.2⟩

/-- C6: in Optimized mode with column count C, unique tile `i` is placed
at pixel origin `((i mod C)*tileSize, (i div C)*tileSize)` and the output
canvas is `C*tileSize` wide by `ceil(uniqueTiles/C)*tileSize` tall. -/
theorem optimized_layout_spec (img : Image) (opts : ProcessOptions) (r : ProcessResult)
    (hm : opts.mode = Mode.optimized) (hr : processImage img opts = Except.ok r) :
    r.width = opts.columns.getD 8 * opts.tileSize ∧
    r.height = (r.uniqueTiles + opts.columns.getD 8 - 1) / opts.columns.getD 8 *
      opts.tileSize ∧
    ∀ i t, r.tiles[i]? = some t → t.id = i ∧
      t.x = i % opts.columns.getD 8 * opts.tileSize ∧
      t.y = i / opts.columns.getD 8 * opts.tileSize := by
  obtain ⟨h0, hre⟩ := processImage_ok_optimized img opts r hm hr
  subst hre
  refine ⟨rfl, rfl, fun i t ht => ?_⟩
  replace ht : (optimizedTiles opts.tileSize (opts.columns.getD 8)
    (uniqueList (cellBuffers img opts.tileSize (img.width / opts.tileSize)
      (img.height / opts.tileSize))))[i]? = some t := ht
  rw [optimizedTiles_getElem] at ht
  cases hu : (uniqueList (cellBuffers img opts.tileSize (img.width / opts.tileSize)
      (img.height / opts.tileSize)))[i]? with
  | none => rw [hu] at ht; cases ht
  | some e =>
    rw [hu, Option.map_some'] at ht
    have ht' := Option.some.inj ht
    subst ht'
    exact ⟨rfl, rfl, rfl⟩

def tileDataE8 : TileData := ⟨8, 8 % 8 * 48, 8 / 8 * 48, detectCollision (some (tileE 8)) 48⟩

def tileDataE9 : TileData := ⟨9, 9 % 8 * 48, 9 / 8 * 48, detectCollision (some (tileE 9)) 48⟩

/-- C6 witness (Scenario E): 480×48 source of ten distinct tiles, tileSize
48, columns 8 — uniqueTiles 10, output 384×96, tiles 8 and 9 land at row 1,
columns 0 and 1. -/
theorem optimized_layout_spec_witness :
    resScenE.width = 384 ∧ resScenE.height = 96 ∧ resScenE.uniqueTiles = 10 ∧
    tileDataE8.id = 8 ∧ tileDataE8.x = 0 ∧ tileDataE8.y = 48 ∧
    tileDataE9.id = 9 ∧ tileDataE9.x = 48 ∧ tileDataE9.y = 48 := by
  have h := optimized_layout_spec imgScenE optsScenE resScenE rfl scenarioE_eval
  have h8 := h.2.2 8 tileDataE8 (resScenE_tiles_getElem 8 (by omega))
  have h9 := h.2.2 9 tileDataE9 (resScenE_tiles_getElem 9 (by omega))
  refine ⟨h.1.trans (by decide), ?_, resScenE_uniqueTiles,
    h8.1, h8.2.1.trans (by decide), h8.2.2.trans (by decide),
    h9.1, h9.2.1.trans (by decide), h9.2.2.trans (by decide)⟩
  have hh := h.2.1
  rw [resScenE_uniqueTiles] at hh
  exact hh.trans (by decide)

/-- C7: in Original mode, the tile of grid cell (col, row) has
`id = row*cols + col` and output origin `(col*tileSize, row*tileSize)`,
the canvas is `cols*tileSize × rows*tileSize`, and uniqueTiles equals
totalTiles. -/
theorem original_layout_spec (img : Image) (opts : ProcessOptions) (r : ProcessResult)
    (hm : opts.mode = Mode.original) (hr : processImage img opts = Except.ok r) :
    r.width = img.width / opts.tileSize * opts.tileSize ∧
    r.height = img.height / opts.tileSize * opts.tileSize ∧
    r.uniqueTiles = r.totalTiles ∧
    ∀ col row, col < img.width / opts.tileSize → row < img.height / opts.tileSize →
      r.tiles[row * (img.width / opts.tileSize) + col]? = some
        { id := row * (img.width / opts.tileSize) + col
          x := col * opts.tileSize
          y := row * opts.tileSize
          isSolid := detectCollision (some (extractTile img opts.tileSize col row))
            opts.tileSize } := by
  obtain ⟨h0, hre⟩ := processImage_ok_original img opts r hm hr
  subst hre
  exact ⟨rfl, rfl, rfl, fun col row hc hrw =>
    originalTiles_getElem img opts.tileSize _ _ hc hrw⟩

/-- C7 witness: Scenario A shape at tileSize 2 — cell (1, 1) of the tiny
4×4 source has id 3 and origin (2, 2). -/
theorem original_layout_spec_witness :
    resTinyOrig.tiles[3]? = some ⟨3, 2, 2,
      detectCollision (some (extractTile imgTinyOrig 2 1 1)) 2⟩ :=
  (original_layout_spec imgTinyOrig optsTinyOrig resTinyOrig rfl rfl).2.2.2 1 1
    (by decide) (by decide)

/-- C8: the manifest's tiles field is the ascending-id array of
`{id, collision}` pairs taken from the result's tiles, and re-parsing its
serialized JSON text recovers it exactly (count and per-id flags). -/
theorem manifest_roundtrip_spec (img : Image) (opts : ProcessOptions) (r : ProcessResult)
    (hr : processImage img opts = Except.ok r) :
    r.manifest.tiles = r.tiles.map (fun t => { id := t.id, collision := t.isSolid }) ∧
    r.manifest.tiles.map ManifestTile.id = List.range r.tiles.length ∧
    parseTiles (printTiles r.manifest.tiles) = some r.manifest.tiles := by
  have hml : r.manifest.tiles = r.tiles.map (fun t => ⟨t.id, t.isSolid⟩) := by
    cases hm : opts.mode with
    | original =>
      obtain ⟨_, hre⟩ := processImage_ok_original img opts r hm hr
      subst hre
      rfl
    | optimized =>
      obtain ⟨_, hre⟩ := processImage_ok_optimized img opts r hm hr
      subst hre
      rfl
  refine ⟨hml, ?_, parseTiles_printTiles _⟩
  rw [hml, List.map_map]
  exact processImage_tiles_map_id img opts r hr

/-- C8 witness: the tiny optimized run's manifest round-trips. -/
theorem manifest_roundtrip_spec_witness :
    resTinyOpt.manifest.tiles =
      resTinyOpt.tiles.map (fun t => { id := t.id, collision := t.isSolid }) ∧
    resTinyOpt.manifest.tiles.map ManifestTile.id = List.range resTinyOpt.tiles.length ∧
    parseTiles (printTiles resTinyOpt.manifest.tiles) = some resTinyOpt.manifest.tiles :=
  manifest_roundtrip_spec imgTinyOpt optsTinyOpt resTinyOpt rfl

/-- C9: running Optimized mode twice on the same source and configuration
yields the same result, and the unique-tile order is independent of the
internal storage/iteration order of the fingerprint map: recomputing the
tiles with the seen-fingerprint collection arbitrarily reordered
(membership-preserving) after every step yields exactly the same tile
list. -/
theorem optimized_determinism_spec (img : Image) (opts : ProcessOptions)
    (r1 r2 : ProcessResult) (hm : opts.mode = Mode.optimized)
    (h1 : processImage img opts = Except.ok r1)
    (h2 : processImage img opts = Except.ok r2) :
    r1 = r2 ∧
    ∀ reorder : List (List Nat) → List (List Nat),
      (∀ s h, h ∈ reorder s ↔ h ∈ s) →
      optimizedTiles opts.tileSize (opts.columns.getD 8)
        (dedupRecPR reorder [] (cellBuffers img opts.tileSize
          (img.width / opts.tileSize) (img.height / opts.tileSize))) = r1.tiles := by
  obtain ⟨_, hre1⟩ := processImage_ok_optimized img opts r1 hm h1
  obtain ⟨_, hre2⟩ := processImage_ok_optimized img opts r2 hm h2
  subst hre1
  subst hre2
  refine ⟨rfl, fun reorder hmem => ?_⟩
  have hR : dedupRecPR reorder [] (cellBuffers img opts.tileSize
      (img.width / opts.tileSize) (img.height / opts.tileSize)) =
      dedupRecP [] (cellBuffers img opts.tileSize
        (img.width / opts.tileSize) (img.height / opts.tileSize)) :=
    dedupRecPR_eq_dedupRecP reorder hmem _ [] [] (fun h => Iff.rfl)
  rw [hR, ← uniqueList_eq_dedupRecP]
  rfl

/-- C9 witness: the tiny optimized run, with `List.reverse` as the
adversarial internal reordering. -/
theorem optimized_determinism_spec_witness :
    resTinyOpt = resTinyOpt ∧
    optimizedTiles 2 8 (dedupRecPR List.reverse [] (cellBuffers imgTinyOpt 2 2 1)) =
      resTinyOpt.tiles := by
  have h := optimized_determinism_spec imgTinyOpt optsTinyOpt resTinyOpt resTinyOpt
    rfl rfl rfl
  exact ⟨h.1, h.2 List.reverse (fun s x => List.mem_reverse)⟩

/-- C10: every successful invocation returns a tile list whose length is
totalTiles in Original mode and uniqueTiles in Optimized mode, with the
entry at every index `k` carrying `id = k`. -/
theorem tiles_ids_contiguous_spec (img : Image) (opts : ProcessOptions) (r : ProcessResult)
    (hr : processImage img opts = Except.ok r) :
    (opts.mode = Mode.original → r.tiles.length = r.totalTiles) ∧
    (opts.mode = Mode.optimized → r.tiles.length = r.uniqueTiles) ∧
    ∀ (k : Nat) (t : TileData), r.tiles[k]? = some t → t.id = k := by
  have hids := processImage_tiles_map_id img opts r hr
  refine ⟨?_, ?_, ?_⟩
  · intro hm
    obtain ⟨h0, hre⟩ := processImage_ok_original img opts r hm hr
    subst hre
    show (originalTiles img opts.tileSize (img.width / opts.tileSize)
      (img.height / opts.tileSize)).length =
      img.width / opts.tileSize * (img.height / opts.tileSize)
    rw [originalTiles_length]
    exact Nat.mul_comm _ _
  · intro hm
    obtain ⟨h0, hre⟩ := processImage_ok_optimized img opts r hm hr
    subst hre
    exact optimizedTiles_length _ _ _
  · intro k t ht
    have h1 : (r.tiles.map TileData.id)[k]? = some t.id := by
      rw [List.getElem?_map, ht]
      rfl
    rw [hids] at h1
    have hk : k < r.tiles.length := by
      by_contra hk
      rw [List.getElem?_eq_none (by simpa using Nat.le_of_not_lt hk)] at h1
      cases h1
    rw [List.getElem?_range hk] at h1
    exact (Option.some.inj h1).symm

/-- C10 witness: the tiny optimized run has one tile (= uniqueTiles) whose
entry at index 0 has id 0. -/
theorem tiles_ids_contiguous_spec_witness :
    resTinyOpt.tiles.length = resTinyOpt.uniqueTiles ∧
    (⟨0, 0, 0, true⟩ : TileData).id = 0 := by
  have h := tiles_ids_contiguous_spec imgTinyOpt optsTinyOpt resTinyOpt rfl
  exact ⟨h.2.1 rfl, h.2.2 0 ⟨0, 0, 0, true⟩ rfl⟩

end Tilemap
